import Mathlib

/-!
Verification of the speed-violation core of `check_speed_violations.py`:
the speed-limit text parser, the two-tier coordinate resolver, the
run-segmentation loop with its per-file coordinate cache and module-level
globals, and the timeline exporter.  Numeric values are modelled as
rationals, JSON objects as structures with `Option` fields for keys that
may be absent, and the external spatial index as a structure of query
functions.
-/

namespace SpeedCheck

/-- Value found in a candidate feature's `maxspeed` field: JSON text or a
JSON number (anything that is not a Python `str` is rejected by the
parser's `isinstance` check). -/
inductive MSVal where
  | str (s : String)
  | num (q : ℚ)
deriving DecidableEq

/-- Python `str.strip`: drop whitespace from both ends. -/
def pyStrip (l : List Char) : List Char :=
  ((l.dropWhile Char.isWhitespace).reverse.dropWhile Char.isWhitespace).reverse

/-- The fixed `text_limits` table of `parse_speed_limit`.  The result is
`some v` when the stripped string is a key of the table, where `v` is the
mapped value (`none` encodes the Python `None` mapped from the key
`"none"`); it is `none` when the string is not a key. -/
def text_limits (s : String) : Option (Option ℚ) :=
  if s = "RS:urban" then some (some 50)
  else if s = "RS:rural" then some (some 80)
  else if s = "RS:trunk" then some (some 100)
  else if s = "RS:motorway" then some (some 120)
  else if s = "urban" then some (some 50)
  else if s = "rural" then some (some 80)
  else if s = "trunk" then some (some 100)
  else if s = "motorway" then some (some 120)
  else if s = "none" then some none
  else if s = "walk" then some (some 5)
  else none

/-- Numeric value of a digit run. -/
def digitsVal (l : List Char) : ℕ :=
  l.foldl (fun n c => 10 * n + (c.toNat - 48)) 0

/-- First match of the pattern `\d+(\.\d+)?` in the character list (the
`re.search` in `parse_speed_limit`), as a rational. -/
def firstNumericToken : List Char → Option ℚ
  | [] => none
  | c :: cs =>
    if c.isDigit then
      let ds := List.takeWhile Char.isDigit (c :: cs)
      let rest := List.dropWhile Char.isDigit (c :: cs)
      match rest with
      | '.' :: r =>
        let fs := List.takeWhile Char.isDigit r
        if fs = [] then some (digitsVal ds)
        else some ((digitsVal ds : ℚ) + (digitsVal fs : ℚ) / (10 : ℚ) ^ fs.length)
      | _ => some (digitsVal ds)
    else firstNumericToken cs

/-- Whether `pat` occurs as a contiguous sublist. -/
def listHasSub (pat : List Char) : List Char → Bool
  | [] => pat.isEmpty
  | c :: cs => List.isPrefixOf pat (c :: cs) || listHasSub pat cs

/-- The miles-per-hour conversion factor 1.60934 of `parse_speed_limit`. -/
def mphFactor : ℚ := 160934 / 100000

/-- Embeds `parse_speed_limit`: reject non-strings and the empty (falsy)
string, strip whitespace, consult the `text_limits` table, otherwise take
the first numeric token and convert from mph when the lowercased string
contains `"mph"`. -/
def parse_speed_limit : Option MSVal → Option ℚ
  | some (MSVal.str s0) =>
    if s0 = "" then none
    else
      let s := pyStrip s0.toList
      match text_limits (String.mk s) with
      | some v => v
      | none =>
        match firstNumericToken s with
        | none => none
        | some v =>
          if listHasSub ['m', 'p', 'h'] (s.map Char.toLower) then some (v * mphFactor)
          else some v
  | _ => none

/-- A candidate feature returned by the spatial index, with the fields the
resolver reads (`maxspeed`, `highway`, `name`, `way_id`); each may be
absent. -/
structure Feature where
  maxspeed : Option MSVal
  highway : Option String
  name : Option String
  way_id : Option ℤ
deriving DecidableEq

/-- The dictionary `find_speed_limit_for_coordinate` returns on success. -/
structure SpeedLimitInfo where
  maxspeed : ℚ
  maxspeed_raw : Option MSVal
  highway : String
  name : String
  way_id : Option ℤ
deriving DecidableEq

/-- Rounding to `p` decimal digits (Python `round(x, p)`; ties are not
exercised by any input below). -/
def roundDp (p : ℕ) (q : ℚ) : ℚ := (round (q * 10 ^ p) : ℤ) / 10 ^ p

/-- Left-pad with zeros to six characters. -/
def pad6 (s : String) : String :=
  String.mk (List.replicate (6 - s.length) '0') ++ s

/-- Fixed-width rendering with six decimals (Python `f"{x:.6f}"`) of a
rational that is an integer multiple of 10⁻⁶. -/
def fmt6 (q : ℚ) : String :=
  let n : ℤ := round (q * 1000000)
  (if n < 0 then "-" else "") ++ toString (n.natAbs / 1000000) ++ "."
    ++ pad6 (toString (n.natAbs % 1000000))

/-- The per-file cache key `f"{round(lat, 6):.6f},{round(lon, 6):.6f}"`. -/
def coordKey (lat lon : ℚ) : String :=
  fmt6 (roundDp 6 lat) ++ "," ++ fmt6 (roundDp 6 lon)

/-- Modelled from the spec: the backing spatial index (class
`OSMSpeedLimitsCache` of module `osm_speed_limits_cache`, which is not
under src/).  Per the spec, the exact lookup is keyed by the coordinates
rounded to the requested precision, and the nearest lookup receives the
raw coordinates and a maximum distance; both return an ordered candidate
list. -/
structure OSMSpeedLimitsCache where
  exactAt : ℚ → ℚ → List Feature
  nearestAt : ℚ → ℚ → ℚ → List Feature

/-- Exact-match query `cache.get_speed_limit(lat, lon, precision)`. -/
def get_speed_limit (c : OSMSpeedLimitsCache) (lat lon : ℚ) (precision : ℕ) : List Feature :=
  c.exactAt (roundDp precision lat) (roundDp precision lon)

/-- Nearest-match query `cache.get_speed_limit_nearest(lat, lon, max_distance)`. -/
def get_speed_limit_nearest (c : OSMSpeedLimitsCache) (lat lon max_distance : ℚ) :
    List Feature :=
  c.nearestAt lat lon max_distance

/-- The result dictionary built from a candidate whose `maxspeed` parsed
to `v`. -/
def mkInfo (f : Feature) (v : ℚ) : SpeedLimitInfo :=
  { maxspeed := v
    maxspeed_raw := f.maxspeed
    highway := f.highway.getD "unknown"
    name := f.name.getD ""
    way_id := f.way_id }

/-- The candidate loop of `find_speed_limit_for_coordinate`: first
feature whose `maxspeed` parses; unparsable candidates are skipped. -/
def firstParseable : List Feature → Option SpeedLimitInfo
  | [] => none
  | f :: fs =>
    match parse_speed_limit f.maxspeed with
    | some v => some (mkInfo f v)
    | none => firstParseable fs

/-- Embeds `find_speed_limit_for_coordinate`: exact match at the given
precision first, then nearest match within 0.001 degrees, `none` when
neither yields a parseable candidate. -/
def find_speed_limit_for_coordinate (c : OSMSpeedLimitsCache) (lat lon : ℚ)
    (precision : ℕ) : Option SpeedLimitInfo :=
  match firstParseable (get_speed_limit c lat lon precision) with
  | some info => some info
  | none => firstParseable (get_speed_limit_nearest c lat lon (1 / 1000))

/-- One element of the input document's `dynamicMetadata` list; every
field the loop reads may be absent. -/
structure Entry where
  timestampUs : Option ℤ
  latitude : Option ℚ
  longitude : Option ℚ
  displaySpeed : Option ℚ
  altitude : Option ℚ
  compassAngle : Option ℚ
deriving DecidableEq

/-- The violation dictionary built for an over-threshold sample. -/
structure Violation where
  timestamp_us : ℤ
  timestamp_s : ℚ
  latitude : ℚ
  longitude : ℚ
  speed_kmh : ℚ
  speed_limit_kmh : ℚ
  speed_limit_raw : Option MSVal
  over_speed : ℚ
  over_speed_percent : ℚ
  highway_type : String
  road_name : String
  way_id : Option ℤ
  altitude : Option ℚ
  compass_angle : Option ℚ
deriving DecidableEq

/-- The module-level mutable variables `start_global` and `end_global`. -/
structure Globals where
  start_global : ℤ
  end_global : ℤ
deriving DecidableEq

/-- The two global updates performed for every entry before any field
check: `start_global` is set on first use (when still 0), `end_global` is
overwritten with the entry's timestamp. -/
def gStep (g : Globals) (e : Entry) : Globals :=
  let ts := e.timestampUs.getD 0
  { start_global := if g.start_global = 0 then ts else g.start_global
    end_global := ts }

/-- The mutable state of one run of `check_metadata_file_violations`.
`callKeys` is ghost instrumentation: it records, in order, the cache key
of every invocation of `find_speed_limit_for_coordinate`; no other field
reads it. -/
structure SegState where
  violations : List Violation
  current_run_best : Option Violation
  coordinate_cache : List (String × Option SpeedLimitInfo)
  entry_count : ℕ
  g : Globals
  callKeys : List String
deriving DecidableEq

/-- Dictionary lookup in the per-file `coordinate_cache`. -/
def cacheFind (cc : List (String × Option SpeedLimitInfo)) (k : String) :
    Option (Option SpeedLimitInfo) :=
  (cc.find? fun p => p.1 == k).map Prod.snd

/-- Close the current run: append `current_run_best` to the output when a
run is active and clear it. -/
def flushRun (s : SegState) : SegState :=
  match s.current_run_best with
  | some v => { s with violations := s.violations ++ [v], current_run_best := none }
  | none => s

/-- The violation dictionary literal of the loop body. -/
def mkViolation (e : Entry) (lat lon speed : ℚ) (sli : SpeedLimitInfo) : Violation :=
  let ts := e.timestampUs.getD 0
  let over := speed - sli.maxspeed
  { timestamp_us := ts
    timestamp_s := if ts = 0 then 0 else (ts : ℚ) / 1000000
    latitude := lat
    longitude := lon
    speed_kmh := speed
    speed_limit_kmh := sli.maxspeed
    speed_limit_raw := sli.maxspeed_raw
    over_speed := over
    over_speed_percent := if sli.maxspeed > 0 then over / sli.maxspeed * 100 else 0
    highway_type := sli.highway
    road_name := sli.name
    way_id := sli.way_id
    altitude := e.altitude
    compass_angle := e.compassAngle }

/-- The tail of the loop body, after the coordinate lookup produced
`info`: close the run when there is no limit or the sample is not over
`limit + threshold`; otherwise keep the strictly better record. -/
def afterLookup (t : ℚ) (s : SegState) (e : Entry) (lat lon speed : ℚ)
    (info : Option SpeedLimitInfo) : SegState :=
  match info with
  | none => flushRun s
  | some sli =>
    if speed > sli.maxspeed + t then
      let v := mkViolation e lat lon speed sli
      match s.current_run_best with
      | none => { s with current_run_best := some v }
      | some b =>
        if v.over_speed > b.over_speed then { s with current_run_best := some v } else s
    else flushRun s

/-- One iteration of the `for entry in data['dynamicMetadata']` loop. -/
def processEntry (c : OSMSpeedLimitsCache) (t : ℚ) (s0 : SegState) (e : Entry) :
    SegState :=
  let s1 := { s0 with g := gStep s0.g e }
  match e.latitude, e.longitude with
  | some lat, some lon =>
    match e.displaySpeed with
    | some speed =>
      let s2 := { s1 with entry_count := s1.entry_count + 1 }
      if speed ≤ 0 then flushRun s2
      else
        let ck := coordKey lat lon
        match cacheFind s2.coordinate_cache ck with
        | some stored => afterLookup t s2 e lat lon speed stored
        | none =>
          let r := find_speed_limit_for_coordinate c lat lon 6
          afterLookup t
            { s2 with
              coordinate_cache := s2.coordinate_cache ++ [(ck, r)]
              callKeys := s2.callKeys ++ [ck] }
            e lat lon speed r
    | none => flushRun s1
  | _, _ => flushRun s1

/-- The input JSON document as the function reads it: it may lack the
`dynamicMetadata` key. -/
structure InputDoc where
  dynamicMetadata : Option (List Entry)
deriving DecidableEq

/-- Fresh per-file loop state over the given global state. -/
def initSeg (g : Globals) : SegState :=
  { violations := []
    current_run_best := none
    coordinate_cache := []
    entry_count := 0
    g := g
    callKeys := [] }

/-- The whole entry loop. -/
def runEntries (c : OSMSpeedLimitsCache) (t : ℚ) (s : SegState) (es : List Entry) :
    SegState :=
  es.foldl (processEntry c t) s

/-- Embeds `check_metadata_file_violations` (with the module globals made
an explicit argument and result): warn-and-return-empty when the
`dynamicMetadata` key is missing, otherwise run the loop and flush the
still-active run at end of stream. -/
def check_metadata_file_violations (c : OSMSpeedLimitsCache) (g : Globals)
    (doc : InputDoc) (violation_threshold : ℚ) : List Violation × Globals :=
  match doc.dynamicMetadata with
  | none => ([], g)
  | some es =>
    let st := runEntries c violation_threshold (initSeg g) es
    ((flushRun st).violations, st.g)

/-- One element of `list_of_timeline_events`. -/
structure TimelineEvent where
  timestamp : ℚ
  latitude : ℚ
  longitude : ℚ
  speed_limit : ℚ
  current_speed : ℚ
  detected_violation : ℕ
deriving DecidableEq

/-- The exported output document. -/
structure TimelineDoc where
  id : String
  start_time : ℚ
  end_time : ℚ
  score : ℚ
  list_of_timeline_events : List TimelineEvent
deriving DecidableEq

/-- The event dictionary built from one violation. -/
def mkEvent (v : Violation) : TimelineEvent :=
  { timestamp := (v.timestamp_us : ℚ) / 1000000
    latitude := v.latitude
    longitude := v.longitude
    speed_limit := v.speed_limit_kmh
    current_speed := v.speed_kmh
    detected_violation := 3 }

/-- Embeds `export_violations_to_json` (with the module global
`end_global` it reads made an explicit argument, and the document
returned instead of written to disk): sort by timestamp, fixed
`start_time = 0`, `end_time = end_global / 1e6`, fixed `score = 0`. -/
def export_violations_to_json (violations : List Violation) (file_id : String)
    (end_global : ℤ) : TimelineDoc :=
  let sorted_violations :=
    if violations.isEmpty then []
    else violations.mergeSort fun a b => decide (a.timestamp_us ≤ b.timestamp_us)
  { id := file_id
    start_time := 0
    end_time := (end_global : ℚ) / 1000000
    score := 0
    list_of_timeline_events := sorted_violations.map mkEvent }

/-- One file's pass through the core, as `main` performs it: segmentation
followed by export, starting from the given module-global state. -/
def pipeline (c : OSMSpeedLimitsCache) (g : Globals) (doc : InputDoc) (t : ℚ)
    (file_id : String) : TimelineDoc :=
  let r := check_metadata_file_violations c g doc t
  export_violations_to_json r.1 file_id r.2.end_global

/-! ### Exception-aware model

The Python source wraps the whole entry loop in `try/except Exception`:
any exception raised by the spatial index during a lookup is caught,
an error line is printed, and the `violations` list accumulated so far is
returned as a normal result.  Here the index's two query operations may
fail, the resolver propagates the failure, and the loop driver embeds the
`except` clause. -/

/-- A spatial index whose queries may raise. -/
structure OSMSpeedLimitsCacheE where
  exactAt : ℚ → ℚ → Except String (List Feature)
  nearestAt : ℚ → ℚ → ℚ → Except String (List Feature)

/-- Exact-match query against a fallible index. -/
def get_speed_limitE (c : OSMSpeedLimitsCacheE) (lat lon : ℚ) (precision : ℕ) :
    Except String (List Feature) :=
  c.exactAt (roundDp precision lat) (roundDp precision lon)

/-- Nearest-match query against a fallible index. -/
def get_speed_limit_nearestE (c : OSMSpeedLimitsCacheE) (lat lon max_distance : ℚ) :
    Except String (List Feature) :=
  c.nearestAt lat lon max_distance

/-- `find_speed_limit_for_coordinate` against a fallible index: an
exception in either query propagates to the caller. -/
def find_speed_limit_for_coordinateE (c : OSMSpeedLimitsCacheE) (lat lon : ℚ)
    (precision : ℕ) : Except String (Option SpeedLimitInfo) :=
  match get_speed_limitE c lat lon precision with
  | Except.error msg => Except.error msg
  | Except.ok ex =>
    match firstParseable ex with
    | some info => Except.ok (some info)
    | none =>
      match get_speed_limit_nearestE c lat lon (1 / 1000) with
      | Except.error msg => Except.error msg
      | Except.ok nr => Except.ok (firstParseable nr)

/-- One loop iteration against a fallible index; only the resolver call
can raise. -/
def processEntryE (c : OSMSpeedLimitsCacheE) (t : ℚ) (s0 : SegState) (e : Entry) :
    Except String SegState :=
  let s1 := { s0 with g := gStep s0.g e }
  match e.latitude, e.longitude with
  | some lat, some lon =>
    match e.displaySpeed with
    | some speed =>
      let s2 := { s1 with entry_count := s1.entry_count + 1 }
      if speed ≤ 0 then Except.ok (flushRun s2)
      else
        let ck := coordKey lat lon
        match cacheFind s2.coordinate_cache ck with
        | some stored => Except.ok (afterLookup t s2 e lat lon speed stored)
        | none =>
          match find_speed_limit_for_coordinateE c lat lon 6 with
          | Except.error msg => Except.error msg
          | Except.ok r =>
            Except.ok (afterLookup t
              { s2 with
                coordinate_cache := s2.coordinate_cache ++ [(ck, r)]
                callKeys := s2.callKeys ++ [ck] }
              e lat lon speed r)
    | none => Except.ok (flushRun s1)
  | _, _ => Except.ok (flushRun s1)

/-- The entry loop with the source's blanket `except Exception` clause:
on the first exception the function stops and returns the `violations`
accumulated so far (the still-active run's `current_run_best` is not
flushed); without an exception the end-of-stream flush runs. -/
def runEntriesE (c : OSMSpeedLimitsCacheE) (t : ℚ) : SegState → List Entry → List Violation
  | s, [] => (flushRun s).violations
  | s, e :: es =>
    match processEntryE c t s e with
    | Except.ok s2 => runEntriesE c t s2 es
    | Except.error _ => s.violations

/-- `check_metadata_file_violations` against a fallible index: it always
returns a plain violation list, never a failure. -/
def check_metadata_file_violationsE (c : OSMSpeedLimitsCacheE) (g : Globals)
    (doc : InputDoc) (violation_threshold : ℚ) : List Violation :=
  match doc.dynamicMetadata with
  | none => []
  | some es => runEntriesE c violation_threshold (initSeg g) es

/-! ### Specification-side views of the loop

Derived (ghost) functions used to state the claims: the resolution one
sample receives from the cache, the cache contents after one sample, the
per-sample classification, and the pure run-collapsing fold the loop's
violations/`current_run_best` components implement. -/

/-- The resolution a sample's coordinates receive given the current cache
contents: the stored value on a hit, a fresh resolver call on a miss. -/
def resolveEntry (c : OSMSpeedLimitsCache) (cc : List (String × Option SpeedLimitInfo))
    (lat lon : ℚ) : Option SpeedLimitInfo :=
  match cacheFind cc (coordKey lat lon) with
  | some stored => stored
  | none => find_speed_limit_for_coordinate c lat lon 6

/-- Cache contents after the loop processes one sample. -/
def cacheStep (c : OSMSpeedLimitsCache) (cc : List (String × Option SpeedLimitInfo))
    (e : Entry) : List (String × Option SpeedLimitInfo) :=
  match e.latitude, e.longitude, e.displaySpeed with
  | some lat, some lon, some speed =>
    if speed ≤ 0 then cc
    else
      match cacheFind cc (coordKey lat lon) with
      | some _ => cc
      | none => cc ++ [(coordKey lat lon, find_speed_limit_for_coordinate c lat lon 6)]
  | _, _, _ => cc

/-- Classification of a moving sample with resolved limit information:
the violation record when the sample is over `limit + threshold`, `none`
otherwise. -/
def classify (t : ℚ) (e : Entry) (lat lon speed : ℚ) :
    Option SpeedLimitInfo → Option Violation
  | none => none
  | some sli =>
    if speed > sli.maxspeed + t then some (mkViolation e lat lon speed sli) else none

/-- Classification of one sample given the current cache contents:
`some v` when the loop classifies it as violating and builds record `v`,
`none` when the sample is run-terminating. -/
def entryOutcome (c : OSMSpeedLimitsCache) (t : ℚ)
    (cc : List (String × Option SpeedLimitInfo)) (e : Entry) : Option Violation :=
  match e.latitude, e.longitude, e.displaySpeed with
  | some lat, some lon, some speed =>
    if speed ≤ 0 then none
    else classify t e lat lon speed (resolveEntry c cc lat lon)
  | _, _, _ => none

/-- The per-sample classification sequence of a stream, threading the
cache exactly as the loop does. -/
def outcomeList (c : OSMSpeedLimitsCache) (t : ℚ) :
    List (String × Option SpeedLimitInfo) → List Entry → List (Option Violation)
  | _, [] => []
  | cc, e :: es => entryOutcome c t cc e :: outcomeList c t (cacheStep c cc e) es

/-- The pure run-collapsing step on (emitted list, open-run best). -/
def segStep (acc : List Violation × Option Violation) (o : Option Violation) :
    List Violation × Option Violation :=
  match o with
  | none =>
    match acc.2 with
    | some b => (acc.1 ++ [b], none)
    | none => acc
  | some v =>
    match acc.2 with
    | none => (acc.1, some v)
    | some b => if v.over_speed > b.over_speed then (acc.1, some v) else acc

/-- End-of-stream flush on the pure accumulator. -/
def closePair (acc : List Violation × Option Violation) : List Violation :=
  match acc.2 with
  | some b => acc.1 ++ [b]
  | none => acc.1

/-- Best-of-run reduction: keep the record with the strictly larger
`over_speed`, so the earliest of equals wins. -/
def runBest (v : Violation) (vs : List Violation) : Violation :=
  vs.foldl (fun b x => if x.over_speed > b.over_speed then x else b) v

/-- The violating records at the head of the classification sequence. -/
def takeRun : List (Option Violation) → List Violation
  | some v :: l => v :: takeRun l
  | _ => []

/-- Drop the violating head of the classification sequence. -/
def dropRun : List (Option Violation) → List (Option Violation)
  | some _ :: l => dropRun l
  | l => l

theorem dropRun_length_le (l : List (Option Violation)) : (dropRun l).length ≤ l.length := by
  induction l with
  | nil => simp [dropRun]
  | cons h t ih =>
    cases h with
    | none => simp [dropRun]
    | some v => simpa [dropRun] using Nat.le_succ_of_le ih

/-- The maximal contiguous runs of violating samples, each as a nonempty
run (head, tail). -/
def splitRuns : List (Option Violation) → List (Violation × List Violation)
  | [] => []
  | none :: l => splitRuns l
  | some v :: l => (v, takeRun l) :: splitRuns (dropRun l)
termination_by l => l.length
decreasing_by
  · simp
  · have := dropRun_length_le l
    simp only [List.length_cons]
    omega

/-- The emitted list of a classification sequence: one best-of-run record
per maximal contiguous violating run. -/
def segList (l : List (Option Violation)) : List Violation :=
  (splitRuns l).map fun p => runBest p.1 p.2

/-! ### Direct (cache-free) segmenter

Second definition for the refinement claim, following the spec's words:
the same state machine with `find_speed_limit_for_coordinate` called
directly on every sample, with no coordinate cache. -/

/-- Loop state of the cache-free segmenter. -/
structure DirectState where
  violations : List Violation
  current_run_best : Option Violation
  entry_count : ℕ
  g : Globals
deriving DecidableEq

/-- Run-closing flush on the cache-free state. -/
def flushRunD (s : DirectState) : DirectState :=
  match s.current_run_best with
  | some v => { s with violations := s.violations ++ [v], current_run_best := none }
  | none => s

/-- Tail of the cache-free loop body after the direct resolver call. -/
def afterLookupD (t : ℚ) (s : DirectState) (e : Entry) (lat lon speed : ℚ)
    (info : Option SpeedLimitInfo) : DirectState :=
  match info with
  | none => flushRunD s
  | some sli =>
    if speed > sli.maxspeed + t then
      let v := mkViolation e lat lon speed sli
      match s.current_run_best with
      | none => { s with current_run_best := some v }
      | some b =>
        if v.over_speed > b.over_speed then { s with current_run_best := some v } else s
    else flushRunD s

/-- One iteration of the cache-free segmenter: every sample resolves its
limit by a direct resolver call. -/
def processEntryDirect (c : OSMSpeedLimitsCache) (t : ℚ) (s0 : DirectState) (e : Entry) :
    DirectState :=
  let s1 := { s0 with g := gStep s0.g e }
  match e.latitude, e.longitude with
  | some lat, some lon =>
    match e.displaySpeed with
    | some speed =>
      let s2 := { s1 with entry_count := s1.entry_count + 1 }
      if speed ≤ 0 then flushRunD s2
      else afterLookupD t s2 e lat lon speed (find_speed_limit_for_coordinate c lat lon 6)
    | none => flushRunD s1
  | _, _ => flushRunD s1

/-- Classification a sample receives from the cache-free segmenter. -/
def entryOutcomeDirect (c : OSMSpeedLimitsCache) (t : ℚ) (e : Entry) : Option Violation :=
  match e.latitude, e.longitude, e.displaySpeed with
  | some lat, some lon, some speed =>
    if speed ≤ 0 then none
    else classify t e lat lon speed (find_speed_limit_for_coordinate c lat lon 6)
  | _, _, _ => none

/-- Agreement of the cached and cache-free loop states on everything but
the cache bookkeeping. -/
def coreAgree (s : SegState) (d : DirectState) : Prop :=
  s.violations = d.violations ∧ s.current_run_best = d.current_run_best
    ∧ s.entry_count = d.entry_count ∧ s.g = d.g

/-- Every cached value is what the resolver returns for any coordinates
carrying that cache key. -/
def cacheInv (c : OSMSpeedLimitsCache) (cc : List (String × Option SpeedLimitInfo)) :
    Prop :=
  ∀ p ∈ cc, ∀ la lo : ℚ, coordKey la lo = p.1 →
    p.2 = find_speed_limit_for_coordinate c la lo 6

/-- The ghost call log lists exactly the cache keys, without repetition. -/
def callsInv (s : SegState) : Prop :=
  s.callKeys = s.coordinate_cache.map Prod.fst
    ∧ (s.coordinate_cache.map Prod.fst).Nodup

/-- Whether a sample reaches the `entry_count += 1` line (all three
required fields present). -/
def countsSample (e : Entry) : Bool :=
  e.latitude.isSome && e.longitude.isSome && e.displaySpeed.isSome

/-- The cache-free segmentation of a whole file. -/
def check_direct (c : OSMSpeedLimitsCache) (g : Globals) (doc : InputDoc) (t : ℚ) :
    List Violation × Globals :=
  match doc.dynamicMetadata with
  | none => ([], g)
  | some es =>
    let st := es.foldl (processEntryDirect c t)
      { violations := [], current_run_best := none, entry_count := 0, g := g }
    ((flushRunD st).violations, st.g)

/-- A resolver that cannot distinguish coordinates sharing a cache key. -/
def keyConstant (c : OSMSpeedLimitsCache) : Prop :=
  ∀ lat lon lat' lon' : ℚ, coordKey lat lon = coordKey lat' lon' →
    find_speed_limit_for_coordinate c lat lon 6 = find_speed_limit_for_coordinate c lat' lon' 6

/-! ### Concrete fixtures for witnesses and counterexamples -/

/-- A candidate with textual limit "50". -/
def featW : Feature :=
  { maxspeed := some (MSVal.str "50"), highway := some "residential",
    name := some "Main", way_id := some 7 }

/-- A candidate with textual limit "10". -/
def feat10 : Feature :=
  { maxspeed := some (MSVal.str "10"), highway := some "residential",
    name := some "Side", way_id := some 8 }

/-- An index whose exact query always yields the "50" candidate. -/
def idxW : OSMSpeedLimitsCache :=
  { exactAt := fun _ _ => [featW], nearestAt := fun _ _ _ => [] }

/-- An index with no features at all. -/
def idxNone : OSMSpeedLimitsCache :=
  { exactAt := fun _ _ => [], nearestAt := fun _ _ _ => [] }

/-- An index whose nearest query distinguishes coordinates beyond the
sixth decimal: limit "50" exactly at latitude 44.1234561, limit "10"
anywhere else. -/
def idxSplit : OSMSpeedLimitsCache :=
  { exactAt := fun _ _ => []
    nearestAt := fun la _ _ =>
      if la = 441234561 / 10000000 then [featW] else [feat10] }

/-- A fallible index: the exact query succeeds (limit "50") at latitude
44 and raises anywhere else; the nearest query always raises. -/
def idxThrow : OSMSpeedLimitsCacheE :=
  { exactAt := fun la _ =>
      if la = 44 then Except.ok [featW] else Except.error "lookup failed"
    nearestAt := fun _ _ _ => Except.error "lookup failed" }

/-- The parsed limit information of `featW`. -/
def sliW : SpeedLimitInfo := mkInfo featW 50

/-- A well-formed sample at (44, 20): timestamp 1 s, 70 km/h. -/
def eA : Entry :=
  { timestampUs := some 1000000, latitude := some 44, longitude := some 20,
    displaySpeed := some 70, altitude := none, compassAngle := none }

/-- A sample at the fresh coordinate (45, 20): timestamp 3 s, 70 km/h. -/
def eC : Entry :=
  { timestampUs := some 3000000, latitude := some 45, longitude := some 20,
    displaySpeed := some 70, altitude := none, compassAngle := none }

/-- A malformed sample: the `latitude` field is missing. -/
def eBad : Entry :=
  { timestampUs := some 5, latitude := none, longitude := some 20,
    displaySpeed := some 80, altitude := none, compassAngle := none }

/-- A sample at latitude 44.1234561 (seventh decimal 1): 70 km/h. -/
def e61 : Entry :=
  { timestampUs := some 1000000, latitude := some (441234561 / 10000000),
    longitude := some 20, displaySpeed := some 70, altitude := none,
    compassAngle := none }

/-- A sample at latitude 44.1234564 (same sixth-decimal rounding as
`e61`): 70 km/h. -/
def e62 : Entry :=
  { timestampUs := some 2000000, latitude := some (441234564 / 10000000),
    longitude := some 20, displaySpeed := some 70, altitude := none,
    compassAngle := none }

/-- The violation record `eA` produces against limit 50. -/
def vA : Violation := mkViolation eA 44 20 70 sliW

/-- A loop state with an active run holding `vA`. -/
def stA : SegState :=
  { violations := []
    current_run_best := some vA
    coordinate_cache := []
    entry_count := 1
    g := { start_global := 1000000, end_global := 1000000 }
    callKeys := [] }

/-- An input document whose sample list is present but empty. -/
def docEmpty : InputDoc := ⟨some []⟩

/-- A sample at (44, 20) whose speed 60 equals limit 50 plus threshold 10. -/
def e60 : Entry :=
  { timestampUs := some 2000000, latitude := some 44, longitude := some 20,
    displaySpeed := some 60, altitude := none, compassAngle := none }

/-- Whether a candidate's `maxspeed` parses (the selection predicate of
the resolver's candidate loop). -/
def isParseable (f : Feature) : Bool := (parse_speed_limit f.maxspeed).isSome

/-! ### Projection lemmas for the loop body -/

theorem flushRun_violations (s : SegState) :
    (flushRun s).violations = s.violations ++ s.current_run_best.toList := by
  cases h : s.current_run_best <;> simp [flushRun, h]

theorem flushRun_best (s : SegState) : (flushRun s).current_run_best = none := by
  cases h : s.current_run_best <;> simp [flushRun, h]

theorem flushRun_cache (s : SegState) :
    (flushRun s).coordinate_cache = s.coordinate_cache := by
  cases h : s.current_run_best <;> simp [flushRun, h]

theorem flushRun_g (s : SegState) : (flushRun s).g = s.g := by
  cases h : s.current_run_best <;> simp [flushRun, h]

theorem flushRun_calls (s : SegState) : (flushRun s).callKeys = s.callKeys := by
  cases h : s.current_run_best <;> simp [flushRun, h]

theorem segStep_none (acc : List Violation × Option Violation) :
    segStep acc none = (acc.1 ++ acc.2.toList, none) := by
  rcases acc with ⟨v, _ | b⟩ <;> simp [segStep]

theorem afterLookup_core (t : ℚ) (s : SegState) (e : Entry) (lat lon speed : ℚ)
    (info : Option SpeedLimitInfo) :
    (afterLookup t s e lat lon speed info).violations
        = (segStep (s.violations, s.current_run_best) (classify t e lat lon speed info)).1
    ∧ (afterLookup t s e lat lon speed info).current_run_best
        = (segStep (s.violations, s.current_run_best) (classify t e lat lon speed info)).2
    ∧ (afterLookup t s e lat lon speed info).coordinate_cache = s.coordinate_cache
    ∧ (afterLookup t s e lat lon speed info).g = s.g
    ∧ (afterLookup t s e lat lon speed info).callKeys = s.callKeys
    ∧ (afterLookup t s e lat lon speed info).entry_count = s.entry_count := by
  have hfc : (flushRun s).entry_count = s.entry_count := by
    cases h : s.current_run_best <;> simp [flushRun, h]
  cases info with
  | none =>
    simp [afterLookup, classify, segStep_none, flushRun_violations, flushRun_best,
      flushRun_cache, flushRun_g, flushRun_calls, hfc]
  | some sli =>
    by_cases hov : speed > sli.maxspeed + t
    · cases hb : s.current_run_best with
      | none => simp [afterLookup, classify, segStep, hov, hb]
      | some b =>
        by_cases h2 : (mkViolation e lat lon speed sli).over_speed > b.over_speed <;>
          simp [afterLookup, classify, segStep, hov, hb, h2]
    · simp [afterLookup, classify, segStep_none, hov, flushRun_violations, flushRun_best,
        flushRun_cache, flushRun_g, flushRun_calls, hfc]

theorem afterLookup_violations (t : ℚ) (s : SegState) (e : Entry) (lat lon speed : ℚ)
    (info : Option SpeedLimitInfo) :
    (afterLookup t s e lat lon speed info).violations
      = (segStep (s.violations, s.current_run_best) (classify t e lat lon speed info)).1 :=
  (afterLookup_core t s e lat lon speed info).1

theorem afterLookup_best (t : ℚ) (s : SegState) (e : Entry) (lat lon speed : ℚ)
    (info : Option SpeedLimitInfo) :
    (afterLookup t s e lat lon speed info).current_run_best
      = (segStep (s.violations, s.current_run_best) (classify t e lat lon speed info)).2 :=
  (afterLookup_core t s e lat lon speed info).2.1

theorem afterLookup_cache (t : ℚ) (s : SegState) (e : Entry) (lat lon speed : ℚ)
    (info : Option SpeedLimitInfo) :
    (afterLookup t s e lat lon speed info).coordinate_cache = s.coordinate_cache :=
  (afterLookup_core t s e lat lon speed info).2.2.1

theorem afterLookup_g (t : ℚ) (s : SegState) (e : Entry) (lat lon speed : ℚ)
    (info : Option SpeedLimitInfo) :
    (afterLookup t s e lat lon speed info).g = s.g :=
  (afterLookup_core t s e lat lon speed info).2.2.2.1

theorem afterLookup_calls (t : ℚ) (s : SegState) (e : Entry) (lat lon speed : ℚ)
    (info : Option SpeedLimitInfo) :
    (afterLookup t s e lat lon speed info).callKeys = s.callKeys :=
  (afterLookup_core t s e lat lon speed info).2.2.2.2.1

theorem afterLookup_count (t : ℚ) (s : SegState) (e : Entry) (lat lon speed : ℚ)
    (info : Option SpeedLimitInfo) :
    (afterLookup t s e lat lon speed info).entry_count = s.entry_count :=
  (afterLookup_core t s e lat lon speed info).2.2.2.2.2

theorem processEntry_core (c : OSMSpeedLimitsCache) (t : ℚ) (s : SegState) (e : Entry) :
    (processEntry c t s e).violations
        = (segStep (s.violations, s.current_run_best)
            (entryOutcome c t s.coordinate_cache e)).1
    ∧ (processEntry c t s e).current_run_best
        = (segStep (s.violations, s.current_run_best)
            (entryOutcome c t s.coordinate_cache e)).2
    ∧ (processEntry c t s e).coordinate_cache = cacheStep c s.coordinate_cache e
    ∧ (processEntry c t s e).g = gStep s.g e := by
  rcases e with ⟨ts, la, lo, sp, alt, ca⟩
  rcases la with _ | lat
  · simp [processEntry, entryOutcome, cacheStep, segStep_none, flushRun_violations,
      flushRun_best, flushRun_cache, flushRun_g]
  rcases lo with _ | lon
  · simp [processEntry, entryOutcome, cacheStep, segStep_none, flushRun_violations,
      flushRun_best, flushRun_cache, flushRun_g]
  rcases sp with _ | speed
  · simp [processEntry, entryOutcome, cacheStep, segStep_none, flushRun_violations,
      flushRun_best, flushRun_cache, flushRun_g]
  by_cases hsp : speed ≤ 0
  · simp [processEntry, entryOutcome, cacheStep, hsp, segStep_none, flushRun_violations,
      flushRun_best, flushRun_cache, flushRun_g]
  · cases hcf : cacheFind s.coordinate_cache (coordKey lat lon) with
    | some stored =>
      simp [processEntry, entryOutcome, cacheStep, resolveEntry, hsp, hcf,
        afterLookup_violations, afterLookup_best, afterLookup_cache, afterLookup_g]
    | none =>
      simp [processEntry, entryOutcome, cacheStep, resolveEntry, hsp, hcf,
        afterLookup_violations, afterLookup_best, afterLookup_cache, afterLookup_g]

/-! ### Fusion: the loop equals the pure run-collapsing fold -/

theorem runEntries_fusion (c : OSMSpeedLimitsCache) (t : ℚ) (es : List Entry)
    (s : SegState) :
    (flushRun (runEntries c t s es)).violations
      = closePair ((outcomeList c t s.coordinate_cache es).foldl segStep
          (s.violations, s.current_run_best)) := by
  induction es generalizing s with
  | nil =>
    cases h : s.current_run_best <;>
      simp [runEntries, outcomeList, closePair, flushRun_violations, h]
  | cons e es ih =>
    obtain ⟨h1, h2, h3, -⟩ := processEntry_core c t s e
    have hs := ih (processEntry c t s e)
    simp only [runEntries, List.foldl_cons] at hs ⊢
    rw [hs, h3, h1, h2, outcomeList]
    simp only [List.foldl_cons]

theorem takeRun_nil : takeRun [] = [] := rfl

theorem takeRun_none (l : List (Option Violation)) : takeRun (none :: l) = [] := rfl

theorem takeRun_some (v : Violation) (l : List (Option Violation)) :
    takeRun (some v :: l) = v :: takeRun l := rfl

theorem dropRun_nil : dropRun [] = [] := rfl

theorem dropRun_none (l : List (Option Violation)) : dropRun (none :: l) = none :: l := rfl

theorem dropRun_some (v : Violation) (l : List (Option Violation)) :
    dropRun (some v :: l) = dropRun l := rfl

theorem segList_nil : segList [] = [] := by simp [segList, splitRuns]

theorem segList_none (l : List (Option Violation)) : segList (none :: l) = segList l := by
  simp [segList, splitRuns]

theorem segList_some (v : Violation) (l : List (Option Violation)) :
    segList (some v :: l) = runBest v (takeRun l) :: segList (dropRun l) := by
  simp [segList, splitRuns]

theorem runBest_cons (b v : Violation) (l : List Violation) :
    runBest b (v :: l) = runBest (if v.over_speed > b.over_speed then v else b) l := rfl

theorem closePair_foldl (l : List (Option Violation)) :
    ∀ (acc : List Violation) (ob : Option Violation),
    closePair (l.foldl segStep (acc, ob))
      = acc ++ ob.elim (segList l) fun b => runBest b (takeRun l) :: segList (dropRun l) := by
  induction l with
  | nil =>
    intro acc ob
    cases ob <;> simp [closePair, segList_nil, takeRun_nil, dropRun_nil, runBest]
  | cons o l ih =>
    intro acc ob
    cases o with
    | none =>
      cases ob with
      | none => simpa [segStep, segList_none] using ih acc none
      | some b =>
        have h := ih (acc ++ [b]) none
        simp only [List.foldl_cons, segStep, Option.elim] at h ⊢
        rw [h, takeRun_none, dropRun_none, segList_none]
        simp [runBest]
    | some v =>
      cases ob with
      | none =>
        have h := ih acc (some v)
        simp only [List.foldl_cons, segStep, Option.elim] at h ⊢
        rw [h, segList_some]
      | some b =>
        have h := ih acc (some (if v.over_speed > b.over_speed then v else b))
        simp only [List.foldl_cons, segStep, Option.elim] at h ⊢
        rw [takeRun_some, dropRun_some, runBest_cons]
        by_cases hvb : v.over_speed > b.over_speed
        · simpa [hvb] using h
        · simpa [hvb] using h

theorem check_eq_segList (c : OSMSpeedLimitsCache) (t : ℚ) (g : Globals)
    (es : List Entry) :
    (check_metadata_file_violations c g ⟨some es⟩ t).1 = segList (outcomeList c t [] es) := by
  have h := runEntries_fusion c t es (initSeg g)
  rw [check_metadata_file_violations]
  simpa [initSeg, closePair_foldl] using h

theorem countP_dropRun_le (l : List (Option Violation)) :
    (dropRun l).countP Option.isSome ≤ l.countP Option.isSome := by
  induction l with
  | nil => simp [dropRun_nil]
  | cons o l ih =>
    cases o with
    | none => simp [dropRun_none]
    | some v =>
      rw [dropRun_some]
      calc (dropRun l).countP Option.isSome ≤ l.countP Option.isSome := ih
        _ ≤ (some v :: l).countP Option.isSome := by simp [List.countP_cons]

theorem segList_length_le (l : List (Option Violation)) :
    (segList l).length ≤ l.countP Option.isSome := by
  induction l using splitRuns.induct with
  | case1 => simp [segList_nil]
  | case2 l ih => simpa [segList_none, List.countP_cons] using ih
  | case3 v l ih =>
    rw [segList_some]
    have hd := countP_dropRun_le l
    simp only [List.length_cons, List.countP_cons]
    simp only [Option.isSome_some, if_true]
    omega

theorem runBest_os_le (v : Violation) (vs : List Violation) :
    v.over_speed ≤ (runBest v vs).over_speed := by
  induction vs generalizing v with
  | nil => simp [runBest]
  | cons x l ih =>
    rw [runBest_cons]
    by_cases h : x.over_speed > v.over_speed
    · calc v.over_speed ≤ x.over_speed := le_of_lt h
        _ ≤ _ := by simpa [h] using ih x
    · simpa [h] using ih v

theorem runBest_split (vs : List Violation) :
    ∀ v : Violation, ∃ pre post : List Violation,
      v :: vs = pre ++ runBest v vs :: post
      ∧ (∀ y ∈ pre, y.over_speed < (runBest v vs).over_speed)
      ∧ ∀ y ∈ post, y.over_speed ≤ (runBest v vs).over_speed := by
  induction vs with
  | nil => exact fun v => ⟨[], [], by simp [runBest], by simp, by simp⟩
  | cons x l ih =>
    intro v
    rw [runBest_cons]
    by_cases h : x.over_speed > v.over_speed
    · obtain ⟨pre, post, he, hpre, hpost⟩ := ih x
      rw [if_pos h]
      refine ⟨v :: pre, post, by rw [List.cons_append, ← he], ?_, hpost⟩
      intro y hy
      rcases List.mem_cons.1 hy with rfl | hy
      · exact lt_of_lt_of_le h (runBest_os_le x l)
      · exact hpre y hy
    · obtain ⟨pre, post, he, hpre, hpost⟩ := ih v
      rw [if_neg h]
      cases pre with
      | nil =>
        rw [List.nil_append] at he
        obtain ⟨hv, hl⟩ := List.cons_eq_cons.mp he
        refine ⟨[], x :: l, ?_, by simp, ?_⟩
        · rw [List.nil_append, ← hv]
        · intro y hy
          rcases List.mem_cons.1 hy with rfl | hy
          · exact le_trans (not_lt.mp h) (runBest_os_le v l)
          · exact hpost y (hl ▸ hy)
      | cons p pre' =>
        rw [List.cons_append] at he
        obtain ⟨hp, hl⟩ := List.cons_eq_cons.mp he
        refine ⟨v :: x :: pre', post, ?_, ?_, hpost⟩
        · rw [List.cons_append, List.cons_append, ← hl]
        · intro y hy
          have hv : v.over_speed < (runBest v l).over_speed := by
            have hq := hpre p (List.mem_cons_self p pre')
            rw [← hp] at hq
            exact hq
          rcases List.mem_cons.1 hy with rfl | hy
          · exact hv
          rcases List.mem_cons.1 hy with rfl | hy
          · exact lt_of_le_of_lt (not_lt.mp h) hv
          · exact hpre y (List.mem_cons_of_mem p hy)

/-! ### Helper lemmas about malformed and boundary samples -/

theorem entryOutcome_malformed (c : OSMSpeedLimitsCache) (t : ℚ)
    (cc : List (String × Option SpeedLimitInfo)) (e : Entry)
    (h : e.latitude = none ∨ e.longitude = none ∨ e.displaySpeed = none) :
    entryOutcome c t cc e = none := by
  rcases e with ⟨ts, la, lo, sp, alt, ca⟩
  rcases la with _ | lat
  · simp [entryOutcome]
  rcases lo with _ | lon
  · simp [entryOutcome]
  rcases sp with _ | speed
  · simp [entryOutcome]
  · simp at h

theorem cacheStep_malformed (c : OSMSpeedLimitsCache)
    (cc : List (String × Option SpeedLimitInfo)) (e : Entry)
    (h : e.latitude = none ∨ e.longitude = none ∨ e.displaySpeed = none) :
    cacheStep c cc e = cc := by
  rcases e with ⟨ts, la, lo, sp, alt, ca⟩
  rcases la with _ | lat
  · simp [cacheStep]
  rcases lo with _ | lon
  · simp [cacheStep]
  rcases sp with _ | speed
  · simp [cacheStep]
  · simp at h

/-! ### The claims -/

/-- C1: for every telemetry stream, the segmenter emits exactly one
record per maximal contiguous run of violating samples, that record is
the run's `runBest` reduction, the reduction is the earliest record of
maximal `over_speed` in its run, and the number of emitted records is at
most the number of violating samples. -/
theorem C1_run_reduction (c : OSMSpeedLimitsCache) (t : ℚ) (g : Globals)
    (es : List Entry) :
    (check_metadata_file_violations c g ⟨some es⟩ t).1
        = segList (outcomeList c t [] es)
    ∧ (check_metadata_file_violations c g ⟨some es⟩ t).1.length
        ≤ (outcomeList c t [] es).countP Option.isSome
    ∧ ∀ p ∈ splitRuns (outcomeList c t [] es),
        ∃ pre post : List Violation,
          p.1 :: p.2 = pre ++ runBest p.1 p.2 :: post
          ∧ (∀ y ∈ pre, y.over_speed < (runBest p.1 p.2).over_speed)
          ∧ ∀ y ∈ post, y.over_speed ≤ (runBest p.1 p.2).over_speed := by
  refine ⟨check_eq_segList c t g es, ?_, ?_⟩
  · rw [check_eq_segList]
    exact segList_length_le _
  · intro p _
    exact runBest_split p.2 p.1

/-- C7: a sample missing its latitude, longitude or speed field is
run-terminating and non-violating: the active run's best record is
flushed, the state returns to no-run with the cache untouched, the loop
continues with the remaining samples, and a later violating sample opens
a fresh run holding its own record. -/
theorem C7_malformed_flush (c : OSMSpeedLimitsCache) (t : ℚ) (s : SegState) (e : Entry)
    (h : e.latitude = none ∨ e.longitude = none ∨ e.displaySpeed = none) :
    (processEntry c t s e).violations = s.violations ++ s.current_run_best.toList
    ∧ (processEntry c t s e).current_run_best = none
    ∧ (processEntry c t s e).coordinate_cache = s.coordinate_cache
    ∧ (∀ es : List Entry,
        runEntries c t s (e :: es) = runEntries c t (processEntry c t s e) es)
    ∧ ∀ (e' : Entry) (v : Violation), entryOutcome c t s.coordinate_cache e' = some v →
        (processEntry c t (processEntry c t s e) e').current_run_best = some v := by
  obtain ⟨h1, h2, h3, -⟩ := processEntry_core c t s e
  rw [entryOutcome_malformed c t _ e h] at h1 h2
  rw [cacheStep_malformed c _ e h] at h3
  rw [segStep_none] at h1 h2
  refine ⟨h1, h2, h3, fun es => rfl, ?_⟩
  intro e' v hv
  obtain ⟨-, h2', -, -⟩ := processEntry_core c t (processEntry c t s e) e'
  rw [h3, hv, h2] at h2'
  simpa [segStep] using h2'

/-- C7 witness: a sample with no latitude in the middle of an active run
flushes the run's record, clears the state, leaves the cache untouched,
and the next over-threshold sample at (44, 20) opens a new run. -/
theorem C7_malformed_flush_witness :
    ((processEntry idxW 10 stA eBad).violations
        = stA.violations ++ stA.current_run_best.toList
    ∧ (processEntry idxW 10 stA eBad).current_run_best = none
    ∧ (processEntry idxW 10 stA eBad).coordinate_cache = stA.coordinate_cache
    ∧ (∀ es : List Entry,
        runEntries idxW 10 stA (eBad :: es) = runEntries idxW 10 (processEntry idxW 10 stA eBad) es)
    ∧ ∀ (e' : Entry) (v : Violation),
        entryOutcome idxW 10 stA.coordinate_cache e' = some v →
        (processEntry idxW 10 (processEntry idxW 10 stA eBad) e').current_run_best = some v) :=
  C7_malformed_flush idxW 10 stA eBad (Or.inl rfl)

/-- C8: a sample whose speed equals its resolved limit plus the
threshold exactly is not a violation: it is classified as
run-terminating, any active run's best record is flushed, and the sample
contributes no record of its own. -/
theorem C8_exact_boundary (c : OSMSpeedLimitsCache) (t : ℚ) (s : SegState) (e : Entry)
    (lat lon speed : ℚ) (sli : SpeedLimitInfo)
    (ht : 0 ≤ t)
    (hla : e.latitude = some lat) (hlo : e.longitude = some lon)
    (hsp : e.displaySpeed = some speed)
    (hres : resolveEntry c s.coordinate_cache lat lon = some sli)
    (heq : speed = sli.maxspeed + t) :
    entryOutcome c t s.coordinate_cache e = none
    ∧ (processEntry c t s e).violations = s.violations ++ s.current_run_best.toList
    ∧ (processEntry c t s e).current_run_best = none := by
  have hout : entryOutcome c t s.coordinate_cache e = none := by
    rcases e with ⟨ts, la, lo, sp, alt, ca⟩
    simp only [Entry.latitude] at hla
    simp only [Entry.longitude] at hlo
    simp only [Entry.displaySpeed] at hsp
    subst hla hlo hsp
    simp only [entryOutcome]
    split
    · rfl
    · rw [hres]
      simp [classify, heq]
  obtain ⟨h1, h2, -, -⟩ := processEntry_core c t s e
  rw [hout, segStep_none] at h1 h2
  exact ⟨hout, h1, h2⟩

theorem firstParseable_of_find?_none (l : List Feature)
    (h : l.find? isParseable = none) : firstParseable l = none := by
  induction l with
  | nil => rfl
  | cons f fs ih =>
    rw [List.find?_cons] at h
    split at h
    · exact absurd h (by simp)
    · rename_i hp
      have hpn : parse_speed_limit f.maxspeed = none := by
        have := Option.not_isSome_iff_eq_none.mp (by simpa [isParseable] using hp)
        exact this
      rw [firstParseable, hpn]
      exact ih h

theorem firstParseable_of_find?_some (l : List Feature) (f : Feature)
    (h : l.find? isParseable = some f) :
    ∃ v, parse_speed_limit f.maxspeed = some v ∧ firstParseable l = some (mkInfo f v) := by
  induction l with
  | nil => simp at h
  | cons f0 fs ih =>
    rw [List.find?_cons] at h
    split at h
    · rename_i hp
      obtain ⟨v, hv⟩ := Option.isSome_iff_exists.mp (by simpa [isParseable] using hp)
      obtain rfl : f0 = f := by simpa using h
      exact ⟨v, hv, by rw [firstParseable, hv]⟩
    · rename_i hp
      have hpn : parse_speed_limit f0.maxspeed = none :=
        Option.not_isSome_iff_eq_none.mp (by simpa [isParseable] using hp)
      obtain ⟨v, hv, hfp⟩ := ih h
      exact ⟨v, hv, by rw [firstParseable, hpn, hfp]⟩

theorem entryOutcome_of_resolve_none (c : OSMSpeedLimitsCache) (t : ℚ)
    (cc : List (String × Option SpeedLimitInfo)) (e : Entry) (la lo sp : ℚ)
    (hla : e.latitude = some la) (hlo : e.longitude = some lo)
    (hsp : e.displaySpeed = some sp)
    (hres : resolveEntry c cc la lo = none) :
    entryOutcome c t cc e = none := by
  rcases e with ⟨ts, la0, lo0, sp0, alt, ca⟩
  simp only [Entry.latitude] at hla
  simp only [Entry.longitude] at hlo
  simp only [Entry.displaySpeed] at hsp
  subst hla hlo hsp
  simp only [entryOutcome]
  split
  · rfl
  · rw [hres]
    rfl

/-- C4: the resolver queries the index exactly (precision 6, the index
keyed by coordinates rounded to six decimals) and returns the first
candidate whose `maxspeed` parses; when no exact candidate parses it
queries the nearest feature within 0.001 degrees with the same selection;
when neither step yields a parseable candidate it returns `none`, and the
segmenter classifies such a sample as non-violating. -/
theorem C4_two_tier_resolution (c : OSMSpeedLimitsCache) (lat lon t : ℚ) :
    get_speed_limit c lat lon 6 = c.exactAt (roundDp 6 lat) (roundDp 6 lon)
    ∧ (∀ f : Feature, (get_speed_limit c lat lon 6).find? isParseable = some f →
        ∃ v, parse_speed_limit f.maxspeed = some v ∧
          find_speed_limit_for_coordinate c lat lon 6 = some (mkInfo f v))
    ∧ ((get_speed_limit c lat lon 6).find? isParseable = none →
        ∀ f : Feature,
          (get_speed_limit_nearest c lat lon (1 / 1000)).find? isParseable = some f →
          ∃ v, parse_speed_limit f.maxspeed = some v ∧
            find_speed_limit_for_coordinate c lat lon 6 = some (mkInfo f v))
    ∧ ((get_speed_limit c lat lon 6).find? isParseable = none →
        (get_speed_limit_nearest c lat lon (1 / 1000)).find? isParseable = none →
        find_speed_limit_for_coordinate c lat lon 6 = none)
    ∧ ∀ (cc : List (String × Option SpeedLimitInfo)) (e : Entry) (la lo sp : ℚ),
        e.latitude = some la → e.longitude = some lo → e.displaySpeed = some sp →
        resolveEntry c cc la lo = none → entryOutcome c t cc e = none := by
  refine ⟨rfl, ?_, ?_, ?_, ?_⟩
  · intro f hf
    obtain ⟨v, hv, hfp⟩ := firstParseable_of_find?_some _ f hf
    exact ⟨v, hv, by rw [find_speed_limit_for_coordinate, hfp]⟩
  · intro hex f hf
    obtain ⟨v, hv, hfp⟩ := firstParseable_of_find?_some _ f hf
    have hen := firstParseable_of_find?_none _ hex
    exact ⟨v, hv, by rw [find_speed_limit_for_coordinate, hen, hfp]⟩
  · intro hex hnr
    have hen := firstParseable_of_find?_none _ hex
    have hnn := firstParseable_of_find?_none _ hnr
    rw [find_speed_limit_for_coordinate, hen, hnn]
  · intro cc e la lo sp hla hlo hsp hres
    exact entryOutcome_of_resolve_none c t cc e la lo sp hla hlo hsp hres

theorem parse_nonstring (m : Option MSVal) (h : ∀ s : String, m ≠ some (MSVal.str s)) :
    parse_speed_limit m = none := by
  match m with
  | none => rfl
  | some (MSVal.num q) => rfl
  | some (MSVal.str s) => exact absurd rfl (h s)

theorem firstParseable_nonstring (l : List Feature)
    (h : ∀ f ∈ l, ∀ s : String, f.maxspeed ≠ some (MSVal.str s)) :
    firstParseable l = none := by
  induction l with
  | nil => rfl
  | cons f fs ih =>
    rw [firstParseable, parse_nonstring f.maxspeed (h f (List.mem_cons_self f fs))]
    exact ih fun f' hf' => h f' (List.mem_cons_of_mem f hf')

/-- C10: a candidate whose `maxspeed` is not a string (a JSON number, or
absent) never parses, so an index supplying only non-string limits
resolves every coordinate to `none`, and samples at such coordinates are
classified as non-violating. -/
theorem C10_nonstring_maxspeed :
    (∀ q : ℚ, parse_speed_limit (some (MSVal.num q)) = none)
    ∧ parse_speed_limit none = none
    ∧ (∀ (c : OSMSpeedLimitsCache) (lat lon : ℚ),
        (∀ f ∈ get_speed_limit c lat lon 6, ∀ s : String,
          f.maxspeed ≠ some (MSVal.str s)) →
        (∀ f ∈ get_speed_limit_nearest c lat lon (1 / 1000), ∀ s : String,
          f.maxspeed ≠ some (MSVal.str s)) →
        find_speed_limit_for_coordinate c lat lon 6 = none)
    ∧ ∀ (c : OSMSpeedLimitsCache) (t : ℚ)
        (cc : List (String × Option SpeedLimitInfo)) (e : Entry) (la lo sp : ℚ),
        e.latitude = some la → e.longitude = some lo → e.displaySpeed = some sp →
        (cacheFind cc (coordKey la lo) = some none
          ∨ (cacheFind cc (coordKey la lo) = none
              ∧ find_speed_limit_for_coordinate c la lo 6 = none)) →
        entryOutcome c t cc e = none := by
  refine ⟨fun q => rfl, rfl, ?_, ?_⟩
  · intro c lat lon hex hnr
    rw [find_speed_limit_for_coordinate, firstParseable_nonstring _ hex,
      firstParseable_nonstring _ hnr]
  · intro c t cc e la lo sp hla hlo hsp hcache
    have hres : resolveEntry c cc la lo = none := by
      rcases hcache with hc | ⟨hc, hf⟩
      · rw [resolveEntry, hc]
      · rw [resolveEntry, hc, hf]
    exact entryOutcome_of_resolve_none c t cc e la lo sp hla hlo hsp hres

/-- C9: an input with an empty sample list yields the well-formed
document with identifier, zero start, zero end, zero score and no
events; and for any leftover end marker, exporting zero violations still
yields the full document shape with an empty event list. -/
theorem C9_empty_stream (c : OSMSpeedLimitsCache) (t : ℚ) (fid : String) :
    pipeline c ⟨0, 0⟩ ⟨some []⟩ t fid
      = { id := fid, start_time := 0, end_time := 0, score := 0,
          list_of_timeline_events := [] }
    ∧ ∀ (eg : ℤ) (fid' : String), export_violations_to_json [] fid' eg
      = { id := fid', start_time := 0, end_time := (eg : ℚ) / 1000000, score := 0,
          list_of_timeline_events := [] } := by
  constructor
  · simp [pipeline, check_metadata_file_violations, runEntries, initSeg, flushRun,
      export_violations_to_json]
  · intro eg fid'
    simp [export_violations_to_json]

section ConcreteEvaluation

attribute [local semireducible] Rat.mul Rat.add Rat.inv Rat.sub

/-- C5: the parser trims whitespace, maps the fixed text table
(`urban` 50, `rural` 80, `trunk` 100, `motorway` 120, the identical
`RS:`-prefixed variants, `walk` 5), treats `"none"` as unparseable,
parses "60 mph" to 60 × 1.60934 = 96.5604 km/h, extracts the first
numeric token otherwise (converted from mph exactly when the string
contains "mph" case-insensitively), and yields nothing for a string
neither in the table nor containing a numeric token. -/
theorem C5_parse_speed_limit :
    parse_speed_limit (some (MSVal.str "urban")) = some 50
    ∧ parse_speed_limit (some (MSVal.str "rural")) = some 80
    ∧ parse_speed_limit (some (MSVal.str "trunk")) = some 100
    ∧ parse_speed_limit (some (MSVal.str "motorway")) = some 120
    ∧ parse_speed_limit (some (MSVal.str "RS:urban")) = some 50
    ∧ parse_speed_limit (some (MSVal.str "RS:rural")) = some 80
    ∧ parse_speed_limit (some (MSVal.str "RS:trunk")) = some 100
    ∧ parse_speed_limit (some (MSVal.str "RS:motorway")) = some 120
    ∧ parse_speed_limit (some (MSVal.str "walk")) = some 5
    ∧ parse_speed_limit (some (MSVal.str "none")) = none
    ∧ parse_speed_limit (some (MSVal.str "60 mph")) = some (60 * mphFactor)
    ∧ (60 : ℚ) * mphFactor = 965604 / 10000
    ∧ parse_speed_limit (some (MSVal.str "  70  ")) = some 70
    ∧ (∀ s : String, text_limits (String.mk (pyStrip s.toList)) = none →
        firstNumericToken (pyStrip s.toList) = none →
        parse_speed_limit (some (MSVal.str s)) = none)
    ∧ ∀ (s : String) (v : ℚ), s ≠ "" →
        text_limits (String.mk (pyStrip s.toList)) = none →
        firstNumericToken (pyStrip s.toList) = some v →
        parse_speed_limit (some (MSVal.str s))
          = some (if listHasSub ['m', 'p', 'h'] ((pyStrip s.toList).map Char.toLower)
              then v * mphFactor else v) := by
  refine ⟨by decide, by decide, by decide, by decide, by decide, by decide, by decide,
    by decide, by decide, by decide, by decide, by decide, by decide, ?_, ?_⟩
  · intro s h1 h2
    by_cases hs : s = ""
    · simp [parse_speed_limit, hs]
    · simp only [String.toList] at h1 h2
      simp [parse_speed_limit, hs, h1, h2]
  · intro s v hs h1 h2
    simp only [String.toList] at h1 h2
    simp only [String.toList, parse_speed_limit, if_neg hs, h1, h2]
    split <;> simp

end ConcreteEvaluation

theorem runEntries_g (c : OSMSpeedLimitsCache) (t : ℚ) (es : List Entry) :
    ∀ s : SegState, (runEntries c t s es).g = List.foldl gStep s.g es := by
  induction es with
  | nil => intro s; rfl
  | cons e es ih =>
    intro s
    simp only [runEntries, List.foldl_cons]
    have h := (processEntry_core c t s e).2.2.2
    have h2 := ih (processEntry c t s e)
    simp only [runEntries] at h2
    rw [h2, h]

theorem foldl_gStep_end (es : List Entry) :
    ∀ (e : Entry) (g g' : Globals),
    (List.foldl gStep g (e :: es)).end_global
      = (List.foldl gStep g' (e :: es)).end_global := by
  induction es with
  | nil => intro e g g'; simp [gStep]
  | cons e2 es ih =>
    intro e g g'
    simp only [List.foldl_cons]
    exact ih e2 (gStep g e) (gStep g' e)

/-- C3 (amended): the core is deterministic, and for an input whose
sample list is nonempty the output document is independent of the
module-global state left over from earlier files; the leftover
`end_global` leaks into the output only for inputs with no samples. -/
theorem C3_no_leak_when_nonempty (c : OSMSpeedLimitsCache) (doc : InputDoc) (t : ℚ)
    (fid : String) (g g' : Globals) (e : Entry) (es : List Entry)
    (hdoc : doc.dynamicMetadata = some (e :: es)) :
    pipeline c g doc t fid = pipeline c g' doc t fid := by
  rcases doc with ⟨dm⟩
  simp only at hdoc
  subst hdoc
  have hv : (check_metadata_file_violations c g ⟨some (e :: es)⟩ t).1
      = (check_metadata_file_violations c g' ⟨some (e :: es)⟩ t).1 := by
    rw [check_eq_segList, check_eq_segList]
  have hg : (check_metadata_file_violations c g ⟨some (e :: es)⟩ t).2.end_global
      = (check_metadata_file_violations c g' ⟨some (e :: es)⟩ t).2.end_global := by
    simp only [check_metadata_file_violations]
    rw [runEntries_g, runEntries_g]
    exact foldl_gStep_end es e g g'
  simp only [pipeline]
  rw [hv, hg]

section ConcreteEvaluationB

attribute [local semireducible] Rat.mul Rat.add Rat.inv Rat.sub

/-- C3 counterexample: the same empty input document, processed with the
module globals as a fresh process leaves them versus as a previous file
with samples up to timestamp 7 s leaves them, yields different output
documents (end_time 0 versus 7). -/
theorem C3_global_leak_counterexample :
    pipeline idxNone ⟨0, 0⟩ docEmpty 10 "trip"
      ≠ pipeline idxNone ⟨5000000, 7000000⟩ docEmpty 10 "trip" := by decide

/-- C3 witness: for a one-sample input the output does not depend on the
leftover globals. -/
theorem C3_no_leak_when_nonempty_witness :
    pipeline idxNone ⟨0, 0⟩ ⟨some [eA]⟩ 10 "trip"
      = pipeline idxNone ⟨5000000, 7000000⟩ ⟨some [eA]⟩ 10 "trip" :=
  C3_no_leak_when_nonempty idxNone ⟨some [eA]⟩ 10 "trip" ⟨0, 0⟩ ⟨5000000, 7000000⟩
    eA [] rfl

/-- C2: with an index that raises on the second sample's coordinate, the
function returns a normal (here empty) list — the active run opened by
the first sample is silently dropped and no failure reaches the caller —
although without the raising sample the very same run is reported. -/
theorem C2_exception_swallowed :
    check_metadata_file_violationsE idxThrow ⟨0, 0⟩ ⟨some [eA, eC]⟩ 10 = []
    ∧ check_metadata_file_violationsE idxThrow ⟨0, 0⟩ ⟨some [eA]⟩ 10 = [vA] := by
  exact ⟨by decide, by decide⟩

/-- C8 witness: at limit 50 and threshold 10, the 60 km/h sample `e60`
is not a violation and flushes the (empty) run state. -/
theorem C8_exact_boundary_witness :
    entryOutcome idxW 10 (initSeg ⟨0, 0⟩).coordinate_cache e60 = none
    ∧ (processEntry idxW 10 (initSeg ⟨0, 0⟩) e60).violations
        = (initSeg ⟨0, 0⟩).violations ++ (initSeg ⟨0, 0⟩).current_run_best.toList
    ∧ (processEntry idxW 10 (initSeg ⟨0, 0⟩) e60).current_run_best = none :=
  C8_exact_boundary idxW 10 (initSeg ⟨0, 0⟩) e60 44 20 60 sliW (by norm_num) rfl rfl rfl
    (by decide) (by norm_num [sliW, mkInfo, featW])

end ConcreteEvaluationB

/-! ### The cache refines direct resolution (C6) -/

theorem flushRunD_violations (s : DirectState) :
    (flushRunD s).violations = s.violations ++ s.current_run_best.toList := by
  cases h : s.current_run_best <;> simp [flushRunD, h]

theorem flushRunD_best (s : DirectState) : (flushRunD s).current_run_best = none := by
  cases h : s.current_run_best <;> simp [flushRunD, h]

theorem flushRunD_count (s : DirectState) : (flushRunD s).entry_count = s.entry_count := by
  cases h : s.current_run_best <;> simp [flushRunD, h]

theorem flushRunD_g (s : DirectState) : (flushRunD s).g = s.g := by
  cases h : s.current_run_best <;> simp [flushRunD, h]

theorem afterLookupD_core (t : ℚ) (s : DirectState) (e : Entry) (lat lon speed : ℚ)
    (info : Option SpeedLimitInfo) :
    (afterLookupD t s e lat lon speed info).violations
        = (segStep (s.violations, s.current_run_best) (classify t e lat lon speed info)).1
    ∧ (afterLookupD t s e lat lon speed info).current_run_best
        = (segStep (s.violations, s.current_run_best) (classify t e lat lon speed info)).2
    ∧ (afterLookupD t s e lat lon speed info).entry_count = s.entry_count
    ∧ (afterLookupD t s e lat lon speed info).g = s.g := by
  cases info with
  | none =>
    simp [afterLookupD, classify, segStep_none, flushRunD_violations, flushRunD_best,
      flushRunD_count, flushRunD_g]
  | some sli =>
    by_cases hov : speed > sli.maxspeed + t
    · cases hb : s.current_run_best with
      | none => simp [afterLookupD, classify, segStep, hov, hb]
      | some b =>
        by_cases h2 : (mkViolation e lat lon speed sli).over_speed > b.over_speed <;>
          simp [afterLookupD, classify, segStep, hov, hb, h2]
    · simp [afterLookupD, classify, segStep_none, hov, flushRunD_violations,
        flushRunD_best, flushRunD_count, flushRunD_g]

theorem afterLookupD_violations (t : ℚ) (s : DirectState) (e : Entry)
    (lat lon speed : ℚ) (info : Option SpeedLimitInfo) :
    (afterLookupD t s e lat lon speed info).violations
      = (segStep (s.violations, s.current_run_best) (classify t e lat lon speed info)).1 :=
  (afterLookupD_core t s e lat lon speed info).1

theorem afterLookupD_best (t : ℚ) (s : DirectState) (e : Entry)
    (lat lon speed : ℚ) (info : Option SpeedLimitInfo) :
    (afterLookupD t s e lat lon speed info).current_run_best
      = (segStep (s.violations, s.current_run_best) (classify t e lat lon speed info)).2 :=
  (afterLookupD_core t s e lat lon speed info).2.1

theorem afterLookupD_count (t : ℚ) (s : DirectState) (e : Entry)
    (lat lon speed : ℚ) (info : Option SpeedLimitInfo) :
    (afterLookupD t s e lat lon speed info).entry_count = s.entry_count :=
  (afterLookupD_core t s e lat lon speed info).2.2.1

theorem processEntry_count (c : OSMSpeedLimitsCache) (t : ℚ) (s : SegState) (e : Entry) :
    (processEntry c t s e).entry_count
      = s.entry_count + (if countsSample e then 1 else 0) := by
  have hfc : ∀ s' : SegState, (flushRun s').entry_count = s'.entry_count := fun s' => by
    cases h : s'.current_run_best <;> simp [flushRun, h]
  rcases e with ⟨ts, la, lo, sp, alt, ca⟩
  rcases la with _ | lat
  · simp [processEntry, countsSample, hfc]
  rcases lo with _ | lon
  · simp [processEntry, countsSample, hfc]
  rcases sp with _ | speed
  · simp [processEntry, countsSample, hfc]
  by_cases hsp : speed ≤ 0
  · simp [processEntry, countsSample, hsp, hfc]
  · cases hcf : cacheFind s.coordinate_cache (coordKey lat lon) with
    | some stored => simp [processEntry, countsSample, hsp, hcf, afterLookup_count]
    | none => simp [processEntry, countsSample, hsp, hcf, afterLookup_count]

theorem processEntryDirect_count (c : OSMSpeedLimitsCache) (t : ℚ) (d : DirectState)
    (e : Entry) :
    (processEntryDirect c t d e).entry_count
      = d.entry_count + (if countsSample e then 1 else 0) := by
  rcases e with ⟨ts, la, lo, sp, alt, ca⟩
  rcases la with _ | lat
  · simp [processEntryDirect, countsSample, flushRunD_count]
  rcases lo with _ | lon
  · simp [processEntryDirect, countsSample, flushRunD_count]
  rcases sp with _ | speed
  · simp [processEntryDirect, countsSample, flushRunD_count]
  by_cases hsp : speed ≤ 0
  · simp [processEntryDirect, countsSample, hsp, flushRunD_count]
  · simp [processEntryDirect, countsSample, hsp, afterLookupD_count]

theorem processEntryDirect_core (c : OSMSpeedLimitsCache) (t : ℚ) (d : DirectState)
    (e : Entry) :
    (processEntryDirect c t d e).violations
        = (segStep (d.violations, d.current_run_best) (entryOutcomeDirect c t e)).1
    ∧ (processEntryDirect c t d e).current_run_best
        = (segStep (d.violations, d.current_run_best) (entryOutcomeDirect c t e)).2
    ∧ (processEntryDirect c t d e).g = gStep d.g e := by
  rcases e with ⟨ts, la, lo, sp, alt, ca⟩
  rcases la with _ | lat
  · simp [processEntryDirect, entryOutcomeDirect, segStep_none, flushRunD_violations,
      flushRunD_best, flushRunD_g]
  rcases lo with _ | lon
  · simp [processEntryDirect, entryOutcomeDirect, segStep_none, flushRunD_violations,
      flushRunD_best, flushRunD_g]
  rcases sp with _ | speed
  · simp [processEntryDirect, entryOutcomeDirect, segStep_none, flushRunD_violations,
      flushRunD_best, flushRunD_g]
  by_cases hsp : speed ≤ 0
  · simp [processEntryDirect, entryOutcomeDirect, hsp, segStep_none,
      flushRunD_violations, flushRunD_best, flushRunD_g]
  · simp [processEntryDirect, entryOutcomeDirect, hsp, afterLookupD_violations,
      afterLookupD_best, afterLookupD_core]

theorem cacheFind_mem (cc : List (String × Option SpeedLimitInfo)) (k : String)
    (v : Option SpeedLimitInfo) (h : cacheFind cc k = some v) : (k, v) ∈ cc := by
  rw [cacheFind] at h
  obtain ⟨p, hp, hv⟩ := Option.map_eq_some'.mp h
  have hmem := List.mem_of_find?_eq_some hp
  have hk : p.1 = k := by simpa using List.find?_some hp
  rcases p with ⟨k0, v0⟩
  simp only at hk hv
  subst hk hv
  exact hmem

theorem cacheFind_none_not_mem (cc : List (String × Option SpeedLimitInfo)) (k : String)
    (h : cacheFind cc k = none) : k ∉ cc.map Prod.fst := by
  rw [cacheFind, Option.map_eq_none', List.find?_eq_none] at h
  intro hmem
  obtain ⟨p, hp, hk⟩ := List.mem_map.mp hmem
  exact (by simpa using h p hp : ¬p.1 = k) hk

theorem resolveEntry_eq_find (c : OSMSpeedLimitsCache)
    (cc : List (String × Option SpeedLimitInfo)) (lat lon : ℚ)
    (hinv : cacheInv c cc) :
    resolveEntry c cc lat lon = find_speed_limit_for_coordinate c lat lon 6 := by
  rw [resolveEntry]
  cases hcf : cacheFind cc (coordKey lat lon) with
  | none => rfl
  | some stored =>
    exact hinv (coordKey lat lon, stored) (cacheFind_mem _ _ _ hcf) lat lon rfl

theorem entryOutcome_eq_direct (c : OSMSpeedLimitsCache) (t : ℚ)
    (cc : List (String × Option SpeedLimitInfo)) (e : Entry)
    (hinv : cacheInv c cc) :
    entryOutcome c t cc e = entryOutcomeDirect c t e := by
  rcases e with ⟨ts, la, lo, sp, alt, ca⟩
  rcases la with _ | lat
  · rfl
  rcases lo with _ | lon
  · rfl
  rcases sp with _ | speed
  · rfl
  · simp only [entryOutcome, entryOutcomeDirect]
    rw [resolveEntry_eq_find c cc lat lon hinv]

theorem cacheInv_cacheStep (c : OSMSpeedLimitsCache)
    (cc : List (String × Option SpeedLimitInfo)) (e : Entry)
    (hkc : keyConstant c) (hinv : cacheInv c cc) :
    cacheInv c (cacheStep c cc e) := by
  rcases e with ⟨ts, la, lo, sp, alt, ca⟩
  rcases la with _ | lat
  · exact hinv
  rcases lo with _ | lon
  · exact hinv
  rcases sp with _ | speed
  · exact hinv
  by_cases hsp : speed ≤ 0
  · simpa [cacheStep, hsp] using hinv
  cases hcf : cacheFind cc (coordKey lat lon) with
  | some stored => simpa [cacheStep, hsp, hcf] using hinv
  | none =>
    simp only [cacheStep, if_neg hsp, hcf]
    intro p hp la lo hk
    rcases List.mem_append.mp hp with hp | hp
    · exact hinv p hp la lo hk
    · obtain rfl : p = (coordKey lat lon, find_speed_limit_for_coordinate c lat lon 6) := by
        simpa using hp
      exact (hkc la lo lat lon (by simpa using hk)).symm ▸ rfl

theorem runEntries_direct_agree (c : OSMSpeedLimitsCache) (t : ℚ) (es : List Entry)
    (hkc : keyConstant c) :
    ∀ (s : SegState) (d : DirectState), cacheInv c s.coordinate_cache → coreAgree s d →
    coreAgree (runEntries c t s es) (es.foldl (processEntryDirect c t) d) := by
  induction es with
  | nil => intro s d _ hag; exact hag
  | cons e es ih =>
    intro s d hinv hag
    obtain ⟨hv, hb, hn, hg⟩ := hag
    simp only [runEntries, List.foldl_cons]
    have hstep : coreAgree (processEntry c t s e) (processEntryDirect c t d e) := by
      obtain ⟨p1, p2, p3, p4⟩ := processEntry_core c t s e
      obtain ⟨q1, q2, q3⟩ := processEntryDirect_core c t d e
      have hout := entryOutcome_eq_direct c t s.coordinate_cache e hinv
      have hcount : (processEntry c t s e).entry_count
          = (processEntryDirect c t d e).entry_count := by
        rw [processEntry_count, processEntryDirect_count, hn]
      refine ⟨?_, ?_, hcount, ?_⟩
      · rw [p1, q1, hout, hv, hb]
      · rw [p2, q2, hout, hv, hb]
      · rw [p4, q3, hg]
    have hinv2 : cacheInv c (processEntry c t s e).coordinate_cache := by
      rw [(processEntry_core c t s e).2.2.1]
      exact cacheInv_cacheStep c s.coordinate_cache e hkc hinv
    exact ih (processEntry c t s e) (processEntryDirect c t d e) hinv2 hstep

theorem processEntry_calls (c : OSMSpeedLimitsCache) (t : ℚ) (s : SegState) (e : Entry) :
    ((processEntry c t s e).coordinate_cache = s.coordinate_cache
      ∧ (processEntry c t s e).callKeys = s.callKeys)
    ∨ ∃ lat lon : ℚ,
        cacheFind s.coordinate_cache (coordKey lat lon) = none
        ∧ (processEntry c t s e).coordinate_cache
            = s.coordinate_cache
              ++ [(coordKey lat lon, find_speed_limit_for_coordinate c lat lon 6)]
        ∧ (processEntry c t s e).callKeys = s.callKeys ++ [coordKey lat lon] := by
  rcases e with ⟨ts, la, lo, sp, alt, ca⟩
  rcases la with _ | lat
  · exact Or.inl ⟨by simp [processEntry, flushRun_cache],
      by simp [processEntry, flushRun_calls]⟩
  rcases lo with _ | lon
  · exact Or.inl ⟨by simp [processEntry, flushRun_cache],
      by simp [processEntry, flushRun_calls]⟩
  rcases sp with _ | speed
  · exact Or.inl ⟨by simp [processEntry, flushRun_cache],
      by simp [processEntry, flushRun_calls]⟩
  by_cases hsp : speed ≤ 0
  · exact Or.inl ⟨by simp [processEntry, hsp, flushRun_cache],
      by simp [processEntry, hsp, flushRun_calls]⟩
  cases hcf : cacheFind s.coordinate_cache (coordKey lat lon) with
  | some stored =>
    exact Or.inl ⟨by simp [processEntry, hsp, hcf, afterLookup_cache],
      by simp [processEntry, hsp, hcf, afterLookup_calls]⟩
  | none =>
    refine Or.inr ⟨lat, lon, hcf, ?_, ?_⟩
    · simp [processEntry, hsp, hcf, afterLookup_cache]
    · simp [processEntry, hsp, hcf, afterLookup_calls]

theorem callsInv_processEntry (c : OSMSpeedLimitsCache) (t : ℚ) (s : SegState)
    (e : Entry) (h : callsInv s) : callsInv (processEntry c t s e) := by
  obtain ⟨h1, h2⟩ := h
  rcases processEntry_calls c t s e with ⟨hc, hk⟩ | ⟨lat, lon, hcf, hc, hk⟩
  · exact ⟨by rw [hc, hk, h1], by rw [hc]; exact h2⟩
  · constructor
    · rw [hc, hk, h1]
      simp
    · rw [hc]
      have hnm := cacheFind_none_not_mem _ _ hcf
      simp only [List.map_append, List.map_cons, List.map_nil]
      rw [← List.concat_eq_append]
      exact List.Nodup.concat hnm h2

theorem callsInv_runEntries (c : OSMSpeedLimitsCache) (t : ℚ) (es : List Entry) :
    ∀ s : SegState, callsInv s → callsInv (runEntries c t s es) := by
  induction es with
  | nil => intro s h; exact h
  | cons e es ih =>
    intro s h
    simp only [runEntries, List.foldl_cons]
    exact ih (processEntry c t s e) (callsInv_processEntry c t s e h)

/-- C6 (amended): within one file the resolver is invoked at most once
per cache key (the ghost call log has no repeated key), and when the
resolver cannot distinguish coordinates that share a rounded cache key
the cached segmentation equals the cache-free segmentation that calls
the resolver on every sample.  Without that proviso the two can differ,
because the cache key rounds to six decimals while the resolver receives
the raw coordinates. -/
theorem C6_cache_at_most_once (c : OSMSpeedLimitsCache) (t : ℚ) (g : Globals)
    (es : List Entry) :
    (runEntries c t (initSeg g) es).callKeys.Nodup
    ∧ (keyConstant c →
        check_metadata_file_violations c g ⟨some es⟩ t = check_direct c g ⟨some es⟩ t) := by
  constructor
  · have h := callsInv_runEntries c t es (initSeg g) ⟨rfl, by simp [initSeg]⟩
    rw [h.1]
    exact h.2
  · intro hkc
    have hag := runEntries_direct_agree c t es hkc (initSeg g)
      { violations := [], current_run_best := none, entry_count := 0, g := g }
      (by intro p hp; simp [initSeg] at hp)
      ⟨rfl, rfl, rfl, rfl⟩
    obtain ⟨hv, hb, hn, hg⟩ := hag
    simp only [check_metadata_file_violations, check_direct, Prod.mk.injEq]
    refine ⟨?_, hg⟩
    rw [flushRun_violations, flushRunD_violations, hv, hb]

section ConcreteEvaluationC

attribute [local semireducible] Rat.mul Rat.add Rat.inv Rat.sub

/-- C6 counterexample: with an index whose nearest lookup distinguishes
the seventh decimal, two samples whose coordinates share the rounded
cache key segment differently under the cache (both resolve to the first
sample's limit 50) than under direct per-sample resolution (the second
sample resolves to limit 10 and dominates the run). -/
theorem C6_cache_vs_direct_counterexample :
    (check_metadata_file_violations idxSplit ⟨0, 0⟩ ⟨some [e61, e62]⟩ 10).1
      ≠ (check_direct idxSplit ⟨0, 0⟩ ⟨some [e61, e62]⟩ 10).1 := by decide

/-- C6 witness: for the empty index (every lookup `none`, hence
key-constant) the cached and direct runs agree and the call log of the
two-sample stream has no repeated key. -/
theorem C6_cache_at_most_once_witness :
    (runEntries idxNone 10 (initSeg ⟨0, 0⟩) [e61, e62]).callKeys.Nodup
    ∧ (keyConstant idxNone →
        check_metadata_file_violations idxNone ⟨0, 0⟩ ⟨some [e61, e62]⟩ 10
          = check_direct idxNone ⟨0, 0⟩ ⟨some [e61, e62]⟩ 10) :=
  C6_cache_at_most_once idxNone 10 ⟨0, 0⟩ [e61, e62]

end ConcreteEvaluationC

end SpeedCheck
